import Mathlib

/-!
Shallow embedding of the streaming profiler visualizer in src/main.rs of the
stuck repository. Pure state is modelled explicitly: BTreeMap values become
sorted association lists, the HashMap of suffix counts becomes an association
list, usize arithmetic is Nat with explicit wrapping modulo 2 ^ 64 where the
source can overflow, and panics and fatal errors are an Except error value.
All definitions are computable and structurally recursive so that the kernel
can evaluate them on concrete inputs.
-/

set_option autoImplicit false

/-- The number of values of a 64-bit usize; used for wrapping subtraction. -/
def U64 : Nat := 2 ^ 64

/-- DRAW_EVERY from src/main.rs line 15, in nanoseconds:
Duration::from_millis(200). -/
def DRAW_EVERY_ns : Nat := 200 * 1000000

/-- WINDOW from src/main.rs line 16, in nanoseconds: Duration::from_secs(10),
as read by WINDOW.as_nanos() in draw. -/
def WINDOW_ns : Nat := 10 * 1000000000

/-- Modelled from the spec: the synchronous (live) variant of the tool is not
under src/; per the spec its draw interval is 1 second. -/
def DRAW_EVERY_plain_ns : Nat := 1000 * 1000000

/-- Modelled from the spec: the synchronous (live) variant of the tool is not
under src/; per the spec its retention window is 5 seconds. -/
def WINDOW_live_ns : Nat := 5 * 1000000000

/-- Wrapping usize subtraction, the release-build semantics of a - b on
usize; both arguments are below 2 ^ 64 whenever this is applied. -/
def wsub (a b : Nat) : Nat := (a + U64 - b) % U64

/-- One step of str::starts_with over explicit character lists. -/
def startsWithL : List Char → List Char → Bool
  | [], _ => true
  | _ :: _, [] => false
  | p :: ps, c :: cs => p = c && startsWithL ps cs

/-- line.starts_with(pat) for a string pattern. -/
def startsWithS (s pat : String) : Bool := startsWithL pat.data s.data

/-- line.starts_with(c) for a single character. -/
def startsWithCh (s : String) (c : Char) : Bool :=
  match s.data with
  | [] => false
  | c' :: _ => c' = c

/-- line.is_empty(). -/
def isEmptyStr (s : String) : Bool := s.data.isEmpty

/-- str::trim on the character list: drop whitespace from both ends. -/
def trimChars (l : List Char) : List Char :=
  ((l.dropWhile Char.isWhitespace).reverse.dropWhile Char.isWhitespace).reverse

/-- line.trim(). -/
def trim' (s : String) : String := String.mk (trimChars s.data)

/-- stack.truncate(stack.len() - 1): drop the final character (always the
trailing semicolon pushed after the last frame). -/
def dropLastChar (s : String) : String := String.mk s.data.dropLast

/-- Worker for str::split_whitespace: cur is the current word, reversed. -/
def wordsAux : List Char → List Char → List String
  | [], cur => if cur.isEmpty then [] else [String.mk cur.reverse]
  | c :: cs, cur =>
    if c.isWhitespace then
      if cur.isEmpty then wordsAux cs [] else String.mk cur.reverse :: wordsAux cs []
    else wordsAux cs (c :: cur)

/-- line.split_whitespace(): maximal non-whitespace runs, in order. -/
def splitWhitespace (s : String) : List String := wordsAux s.data []

/-- Accumulate decimal digits; any non-digit character fails the parse. -/
def digitsAux : List Char → Nat → Option Nat
  | [], acc => some acc
  | c :: cs, acc => if c.isDigit then digitsAux cs (acc * 10 + (c.toNat - 48)) else none

/-- field.parse::<usize>(): optional leading plus sign, then one or more
decimal digits, rejecting values that overflow 64 bits. -/
def parseUsize (s : String) : Option Nat :=
  let cs :=
    match s.data with
    | '+' :: rest => rest
    | l => l
  match cs with
  | [] => none
  | _ =>
    match digitsAux cs 0 with
    | some n => if n < U64 then some n else none
    | none => none

/-- str::split(';') on the character list: the pieces between semicolons. -/
def splitSemi : List Char → List (List Char)
  | [] => [[]]
  | c :: cs =>
    if c = ';' then [] :: splitSemi cs
    else
      match splitSemi cs with
      | [] => [[c]]
      | w :: ws => (c :: w) :: ws

/-- The frames of a stored chain string: its semicolon-separated pieces,
exactly the units the rfind walk in draw steps over. -/
def framesOf (s : String) : List String := (splitSemi s.data).map String.mk

/-- Join frames back with semicolons, with no trailing separator. -/
def joinSemi : List String → String
  | [] => ""
  | [f] => f
  | f :: g :: rest => f ++ ";" ++ joinSemi (g :: rest)

/-- stack.find(';').is_some(): whether the suffix has an internal separator,
i.e. more than one frame. -/
def containsSemi (s : String) : Bool := s.data.contains ';'

/-- Parsing a record header in main (src/main.rs lines 126-138): two
whitespace-separated fields, timestamp then thread id, each parsed as usize;
the expect calls on missing or invalid fields are the error results. -/
def parseHeader (line : String) : Except String (Nat × Nat) :=
  match splitWhitespace line with
  | [] => Except.error "no time given for frame"
  | [f0] =>
    match parseUsize f0 with
    | none => Except.error "invalid time"
    | some _ => Except.error "no tid given for frame"
  | f0 :: f1 :: _ =>
    match parseUsize f0 with
    | none => Except.error "invalid time"
    | some time =>
      match parseUsize f1 with
      | none => Except.error "invalid tid"
      | some tid => Except.ok (time, tid)

/-- A header line that is malformed in the sense of the spec: missing the
timestamp or thread-id field, or with a first or second field that is not a
valid non-negative integer. -/
def badHeader (line : String) : Bool :=
  match splitWhitespace line with
  | [] => true
  | [_] => true
  | f0 :: f1 :: _ => (parseUsize f0).isNone || (parseUsize f1).isNone

/-- BTreeMap::insert on a window sorted by timestamp key: keeps keys sorted,
overwrites an equal key. -/
def btInsert (k : Nat) (v : String) : List (Nat × String) → List (Nat × String)
  | [] => [(k, v)]
  | (k', v') :: rest =>
    if k < k' then (k, v) :: (k', v') :: rest
    else if k = k' then (k, v) :: rest
    else (k', v') :: btInsert k v rest

/-- tids.entry(tid).or_insert_with(Thread::default).window.insert(time, chain)
on the store sorted by thread id. -/
def storeInsert (tid time : Nat) (chain : String) :
    List (Nat × List (Nat × String)) → List (Nat × List (Nat × String))
  | [] => [(tid, [(time, chain)])]
  | (t', w) :: rest =>
    if tid < t' then (tid, [(time, chain)]) :: (t', w) :: rest
    else if tid = t' then (t', btInsert time chain w) :: rest
    else (t', w) :: storeInsert tid time chain rest

/-- One thread of the scan at the top of draw: latest = max(latest, last) for
the last window key, if any. -/
def latStep (latest : Nat) (t : Nat × List (Nat × String)) : Nat :=
  match t.2.getLast? with
  | some kv => Nat.max latest kv.1
  | none => latest

/-- The scan at the top of draw (src/main.rs lines 165-170): the maximum
window key over all threads, via keys().next_back() of each sorted window. -/
def latestOf (threads : List (Nat × List (Nat × String))) : Nat :=
  threads.foldl latStep 0

/-- The eviction pass in draw (src/main.rs lines 171-178): when the global
maximum timestamp exceeds WINDOW, every window is replaced by its
split_off(latest - WINDOW), keeping exactly the keys at or above the bound. -/
def evictPass (threads : List (Nat × List (Nat × String))) :
    List (Nat × List (Nat × String)) :=
  let latest := latestOf threads
  if WINDOW_ns < latest then
    threads.map (fun t => (t.1, t.2.filter (fun kv => decide (latest - WINDOW_ns ≤ kv.1))))
  else threads

/-- Whether a window association list is sorted by its timestamp keys, the
invariant BTreeMap iteration provides. -/
def sortedKeys : List (Nat × String) → Bool
  | [] => true
  | [_] => true
  | a :: b :: rest => decide (a.1 ≤ b.1) && sortedKeys (b :: rest)

/-- The per-thread scan state in draw: the hits table (HashMap from suffix
string to count) and the running max with its count snapshot. -/
structure ScanState where
  hits : List (String × Nat)
  max : Option (String × Nat)

/-- hits.entry(k).or_insert(0); *count += 1 — returns the new count together
with the updated table. -/
def bump : List (String × Nat) → String → Nat × List (String × Nat)
  | [], k => (1, [(k, 1)])
  | (k', c) :: rest, k =>
    if k = k' then (c + 1, (k', c + 1) :: rest)
    else
      let r := bump rest k
      (r.1, (k', c) :: r.2)

/-- One emitted suffix in draw (src/main.rs lines 195-203): increment its
count, then replace the running max whenever the new count is at least the
current max count. -/
def noteSuffix (st : ScanState) (sfx : String) : ScanState :=
  let r := bump st.hits sfx
  let newMax :=
    match st.max with
    | some m => if m.2 ≤ r.1 then some (sfx, r.1) else st.max
    | none => some (sfx, r.1)
  ⟨r.2, newMax⟩

/-- The while-let rfind walk in draw (src/main.rs lines 191-194) on the
semicolon-separated pieces of the stack string: each iteration moves the cut
to the next semicolon to the left and emits the text to its right, so the
emission order is the join of the last piece, the last two pieces, and so on,
stopping before the whole string. -/
def suffixWalk : List String → List String
  | [] => []
  | [_] => []
  | _ :: f :: rest => suffixWalk (f :: rest) ++ [joinSemi (f :: rest)]

/-- Process one sample of a thread window: fold the emitted suffixes of its
chain through the count-and-max update. -/
def scanSample (st : ScanState) (stack : String) : ScanState :=
  (suffixWalk (framesOf stack)).foldl noteSuffix st

/-- The per-thread loop body of draw (src/main.rs lines 186-205): samples in
ascending key order, fresh hits table and max per thread; the final max is
the dominant attribution of the thread. -/
def threadMax (window : List (Nat × String)) : Option (String × Nat) :=
  (window.foldl (fun st kv => scanSample st kv.2) ⟨[], none⟩).max

/-- maxes.entry(stack).or_insert((0, 0)); e.0 += 1; e.1 += count on the
cross-thread BTreeMap keyed by suffix string (sorted insertion). -/
def bumpMaxes : List (String × Nat × Nat) → String → Nat → List (String × Nat × Nat)
  | [], k, c => [(k, 1, c)]
  | (k', n, tot) :: rest, k, c =>
    if k < k' then (k, 1, c) :: (k', n, tot) :: rest
    else if k = k' then (k', n + 1, tot + c) :: rest
    else (k', n, tot) :: bumpMaxes rest k c

/-- The cross-thread aggregation in draw (src/main.rs lines 186-213): each
thread with a dominant attribution contributes one thread count and its final
max count to the entry of that suffix. -/
def threadMaxes (threads : List (Nat × List (Nat × String))) : List (String × Nat × Nat) :=
  threads.foldl
    (fun maxes t =>
      match threadMax t.2 with
      | some sc => bumpMaxes maxes sc.1 sc.2
      | none => maxes)
    []

/-- Stable ascending insertion by contributing-thread count, modelling
maxes.sort_by_key(nthreads). -/
def insertByThreads (x : String × Nat × Nat) : List (String × Nat × Nat) → List (String × Nat × Nat)
  | [] => [x]
  | y :: rest => if y.2.1 ≤ x.2.1 then y :: insertByThreads x rest else x :: y :: rest

/-- maxes.sort_by_key(nthreads): stable sort, ascending by thread count. -/
def sortByThreads : List (String × Nat × Nat) → List (String × Nat × Nat)
  | [] => []
  | x :: rest => insertByThreads x (sortByThreads rest)

/-- The two continue filters in the render loop of draw (src/main.rs lines
225-237): a point survives only if its suffix has an internal semicolon and
its total count is not one. -/
def retainedPoint (p : String × Nat × Nat) : Bool :=
  containsSemi p.1 && (p.2.2 != 1)

/-- The fan-out points that reach the rendered output: the aggregated maxes,
sorted ascending by thread count, iterated in reverse, with the two noise
filters applied. -/
def renderedPoints (threads : List (Nat × List (Nat × String))) : List (String × Nat × Nat) :=
  ((sortByThreads (threadMaxes threads)).reverse).filter retainedPoint

/-- The mutable state of the consumer loop in main: the frame store, the
pending record header, the chain buffer, and the two draw/pacing clocks,
plus observation fields for the analysis: whether each of the two usize
subtractions has underflowed, and how many draw cycles ran. -/
structure LoopState where
  tids : List (Nat × List (Nat × String))
  inframe : Option (Nat × Nat)
  stack : String
  lastprint : Nat
  lasttime : Nat
  ufPace : Bool
  ufDraw : Bool
  drawCount : Nat
  deriving DecidableEq

/-- The ways the consumer loop can terminate abnormally. -/
inductive Fatal where
  /-- A panic from expect or assert with its message. -/
  | abort (msg : String)
  /-- The panic of line.unwrap() on an Err item from the trace source. -/
  | unwrapErr
  /-- The Err return propagated by the question mark on a key read error. -/
  | ioError (msg : String)
  deriving DecidableEq

/-- The state at the top of the consumer loop in main. -/
def initState : LoopState := ⟨[], none, "", 0, 0, false, false, 0⟩

/-- Closing a pending record with a non-empty chain buffer (src/main.rs lines
95-121): strip the trailing semicolon, insert into the store, run the replay
pacing check, then the draw check; a triggered draw runs the eviction pass of
draw on the store. The subtractions time - lasttime and time - lastprint are
wrapping (release semantics); the ufPace and ufDraw fields record when they
underflow, which is where a debug build panics. -/
def closeRecord (replay : Bool) (time tid : Nat) (st : LoopState) : LoopState :=
  let chain := dropLastChar st.stack
  let tids := storeInsert tid time chain st.tids
  let ufP := replay && (st.lasttime != 0) && decide (time < st.lasttime)
  let ufD := decide (time < st.lastprint)
  let doDraw := decide (DRAW_EVERY_ns < wsub time st.lastprint)
  { st with
    tids := if doDraw then evictPass tids else tids
    stack := ""
    inframe := none
    lasttime := time
    lastprint := if doDraw then time else st.lastprint
    ufPace := st.ufPace || ufP
    ufDraw := st.ufDraw || ufD
    drawCount := if doDraw then st.drawCount + 1 else st.drawCount }

/-- The whole if-let Some((time, tid)) = inframe block: a pending record with
an empty chain buffer is dropped without a sample, otherwise it is closed. -/
def closeStep (replay : Bool) (time tid : Nat) (st : LoopState) : LoopState :=
  if isEmptyStr st.stack then { st with inframe := none } else closeRecord replay time tid st

/-- One trace line through the body of the consumer loop (src/main.rs lines
90-144): diagnostic lines are dropped; a non-body line closes any pending
record and, if non-empty, must parse as a new header (expect panics are
fatal); a body line requires a pending record (assert) and appends its
trimmed text plus a semicolon to the chain buffer. -/
def consumeLine (replay : Bool) (st : LoopState) (line : String) : Except Fatal LoopState :=
  if startsWithS line "Error" || startsWithS line "Attaching" then Except.ok st
  else if !startsWithCh line ' ' || isEmptyStr line then
    let st1 :=
      match st.inframe with
      | some p => closeStep replay p.1 p.2 st
      | none => st
    if isEmptyStr line then Except.ok st1
    else
      match parseHeader line with
      | Except.ok p => Except.ok { st1 with inframe := some p }
      | Except.error msg => Except.error (Fatal.abort msg)
  else
    match st.inframe with
    | some _ => Except.ok { st with stack := st.stack ++ trim' line ++ ";" }
    | none => Except.error (Fatal.abort "assertion failed: inframe.is_some()")

/-- Run a list of trace lines through the consumer loop body. -/
def runLines (replay : Bool) (st : LoopState) : List String → Except Fatal LoopState
  | [] => Except.ok st
  | l :: rest =>
    match consumeLine replay st l with
    | Except.ok st' => runLines replay st' rest
    | Except.error e => Except.error e

/-- One item of the merged input stream in main: a line read result from the
trace source, or a key read result from the control channel. -/
inductive Event where
  | line (r : Except String String)
  | key (r : Except String Char)

/-- The consumer loop of main over the merged stream: the stream ending
returns the state as is; an Ok trace line goes through the loop body; an Err
trace line hits line.unwrap() and panics; the q key breaks out of the loop;
any other key is ignored; an Err key is propagated by the question mark. -/
def runLoop (replay : Bool) (st : LoopState) : List Event → Except Fatal LoopState
  | [] => Except.ok st
  | e :: rest =>
    match e with
    | Event.line (Except.ok l) =>
      match consumeLine replay st l with
      | Except.ok st' => runLoop replay st' rest
      | Except.error f => Except.error f
    | Event.line (Except.error _) => Except.error Fatal.unwrapErr
    | Event.key (Except.ok c) => if c = 'q' then Except.ok st else runLoop replay st rest
    | Event.key (Except.error m) => Except.error (Fatal.ioError m)

/-- The chain buffer accumulated by a list of body lines, each contributing
its trimmed text plus a semicolon. -/
def buildBuf : List String → String
  | [] => ""
  | b :: rest => trim' b ++ ";" ++ buildBuf rest

/-- Definition following the words of the spec for claim C1: the suffixes of
a chain are enumerated leaf to root as the last frame alone, the last two
frames, the last three frames, and so on, never the full chain, so the root
frame alone is never emitted. -/
def specSuffixes (frames : List String) : List String :=
  (List.range (frames.length - 1)).map
    (fun i => joinSemi (frames.drop (frames.length - 1 - i)))

/-- Definition following the words of the spec for claim C1: for each emitted
suffix, its frequency count is incremented, and immediately afterwards, if
the new count is greater than or equal to the current maximum count, this
suffix becomes the new candidate maximum. -/
def specNote (st : ScanState) (sfx : String) : ScanState :=
  let r := bump st.hits sfx
  let newMax :=
    match st.max with
    | some m => if m.2 ≤ r.1 then some (sfx, r.1) else st.max
    | none => some (sfx, r.1)
  ⟨r.2, newMax⟩

/-- Definition following the words of the spec for claim C1: samples are
processed in ascending timestamp order, each sample contributing its suffixes
leaf to root through the count-then-compare update; the final maximum is the
dominant attribution of the thread. -/
def specThreadMax (window : List (Nat × String)) : Option (String × Nat) :=
  ((window.map Prod.snd).foldl
      (fun st chain => (specSuffixes (framesOf chain)).foldl specNote st) ⟨[], none⟩).max

/-! ### Helper lemmas -/

theorem strMkData (s : String) : String.mk s.data = s := by
  cases s
  rfl

theorem strAppendAssoc (a b c : String) : a ++ b ++ c = a ++ (b ++ c) := by
  cases a
  cases b
  cases c
  show String.mk _ = String.mk _
  rw [List.append_assoc]

theorem strAppendEmpty (s : String) : s ++ "" = s := by
  cases s
  show String.mk _ = String.mk _
  rw [List.append_nil]

theorem strEmptyAppend (s : String) : "" ++ s = s := by
  cases s
  rfl

theorem suffixWalk_eq_specSuffixes : ∀ frames, suffixWalk frames = specSuffixes frames := by
  intro frames
  induction frames with
  | nil => rfl
  | cons a t ih =>
    cases t with
    | nil => rfl
    | cons b t' =>
      rw [suffixWalk, ih]
      unfold specSuffixes
      simp only [List.length_cons, Nat.add_sub_cancel]
      rw [List.range_succ, List.map_append, List.map_cons, List.map_nil]
      congr 1
      · apply List.map_congr_left
        intro i hi
        have hin : i < t'.length := List.mem_range.mp hi
        rw [show t'.length + 1 - i = (t'.length - i) + 1 by omega, List.drop_succ_cons]
      · rw [show t'.length + 1 - t'.length = 1 by omega]
        rw [show (a :: b :: t').drop 1 = b :: t' from rfl]

theorem specNote_eq_noteSuffix : specNote = noteSuffix := rfl

/-! ### Claim C1 -/

/-- Claim C1: for every thread window, the dominant attribution computed by
draw equals the computation the spec describes: samples in ascending
timestamp order, suffixes enumerated leaf to root as the last one, two,
three, ... frames, never the full chain (so never the root frame alone),
each emitted suffix incrementing its count and taking over the running
maximum exactly when its count is greater than or equal to the current
maximum count, the final maximum being the dominant attribution. -/
theorem c1_dominant_attribution (window : List (Nat × String)) :
    threadMax window = specThreadMax window := by
  unfold threadMax specThreadMax scanSample
  rw [List.foldl_map]
  have hf : (fun (x : ScanState) (y : Nat × String) =>
        (specSuffixes (framesOf y.2)).foldl specNote x)
      = (fun (x : ScanState) (y : Nat × String) =>
        (suffixWalk (framesOf y.2)).foldl noteSuffix x) := by
    funext x y
    rw [suffixWalk_eq_specSuffixes, specNote_eq_noteSuffix]
  rw [hf]

/-! ### Claim C3 -/

/-- Claim C3: the retention window used by the eviction pass is the WINDOW
constant, 10 seconds of the nanosecond trace clock in this replay-capable
variant; the live (synchronous) variant is not under src/, and its 5 second
window is modelled from the spec as WINDOW_live_ns. -/
theorem c3_window_constant :
    WINDOW_ns = 10 * 1000000000 ∧ WINDOW_live_ns = 5 * 1000000000 ∧
    ∀ threads, evictPass threads =
      if WINDOW_ns < latestOf threads then
        threads.map (fun t =>
          (t.1, t.2.filter (fun kv => decide (latestOf threads - WINDOW_ns ≤ kv.1))))
      else threads :=
  ⟨rfl, rfl, fun _ => rfl⟩

/-! ### Claim C6 -/

/-- Counterexample to claim C6: a header line and one body line arrive and
then the merged stream ends. The loop terminates with the frame store still
empty, the record still pending and the chain buffer still holding the frame,
so the in-progress record was not flushed into the store, contrary to the
claim. -/
theorem c6_counterexample :
    (runLoop false initState
        [Event.line (Except.ok "100 1"), Event.line (Except.ok " a")]).toOption.map
      (fun st => (st.tids, st.inframe, st.stack)) = some ([], some (100, 1), "a;") := by
  decide

/-- Claim C6 as amended: when end-of-stream is reached on the merged input,
the consumer loop returns with the state exactly as it was, so an in-progress
record is discarded, never flushed; a record only reaches the Frame Store
when a later empty or header line closes it. -/
theorem c6_no_flush_at_eos (replay : Bool) (st : LoopState) :
    runLoop replay st [] = Except.ok st := rfl

/-! ### Claim C8 -/

/-- Counterexample to claim C8: a single Err item from the trace source makes
the loop hit line.unwrap() and panic, rather than exiting cleanly the way
end-of-stream does (compare c6_no_flush_at_eos). -/
theorem c8_counterexample :
    runLoop false initState [Event.line (Except.error "broken pipe")]
      = Except.error Fatal.unwrapErr := rfl

/-- Claim C8 as amended: an I/O failure on the trace source is not treated as
end-of-stream; the loop panics on line.unwrap() and terminates abnormally, no
matter what state it is in or what input would follow. -/
theorem c8_trace_io_error_panics (replay : Bool) (st : LoopState) (msg : String)
    (rest : List Event) :
    runLoop replay st (Event.line (Except.error msg) :: rest)
      = Except.error Fatal.unwrapErr := rfl

/-! ### Claim C10 -/

/-- Claim C10: the pacing and draw arithmetic requires record close
timestamps to be globally non-decreasing. With replay enabled, thread 1
closes a record at 300000000 (which draws, setting lastprint), then thread 2
closes one at 250000000: both usize subtractions time - lasttime and
time - lastprint underflow (the ufPace and ufDraw flags), even though each
thread's own timestamps are non-decreasing; the wrapped pacing difference is
far above the 1 ms pacing threshold, so a release build sleeps for a huge
wrapped delay while a debug build panics at these subtraction sites. -/
theorem c10_timestamp_regression_underflow :
    (runLoop true initState
        [Event.line (Except.ok "300000000 1"), Event.line (Except.ok " a"),
         Event.line (Except.ok "250000000 2"), Event.line (Except.ok " b"),
         Event.line (Except.ok "")]).toOption.map
      (fun st => (st.ufPace, st.ufDraw)) = some (true, true)
    ∧ 250000000 < 300000000
    ∧ 1000000 < wsub 250000000 300000000 := by
  refine ⟨by decide, by decide, by decide⟩

/-! ### Claim C2 -/

theorem latStep_le (acc : Nat) (p : Nat × List (Nat × String)) : acc ≤ latStep acc p := by
  unfold latStep
  cases p.2.getLast? with
  | none => exact Nat.le_refl acc
  | some kv => exact Nat.le_max_left acc kv.1

theorem foldl_latStep_le (ts : List (Nat × List (Nat × String))) :
    ∀ acc : Nat, acc ≤ ts.foldl latStep acc := by
  induction ts with
  | nil => intro acc; exact Nat.le_refl acc
  | cons q ts ih =>
    intro acc
    exact Nat.le_trans (latStep_le acc q) (ih (latStep acc q))

theorem foldl_latStep_mem (ts : List (Nat × List (Nat × String)))
    (p : Nat × List (Nat × String)) (last : Nat × String)
    (hp : p ∈ ts) (hl : p.2.getLast? = some last) :
    ∀ acc : Nat, last.1 ≤ ts.foldl latStep acc := by
  induction ts with
  | nil => cases hp
  | cons q ts ih =>
    intro acc
    rcases List.mem_cons.mp hp with h | h
    · subst h
      refine Nat.le_trans ?_ (foldl_latStep_le ts (latStep acc p))
      unfold latStep
      rw [hl]
      exact Nat.le_max_right acc last.1
    · exact ih h (latStep acc q)

theorem sorted_getLast_ge (w : List (Nat × String)) :
    sortedKeys w = true → ∀ kv ∈ w, ∃ last, w.getLast? = some last ∧ kv.1 ≤ last.1 := by
  induction w with
  | nil => intro _ kv hkv; cases hkv
  | cons a t ih =>
    intro hs kv hkv
    cases t with
    | nil =>
      rcases List.mem_cons.mp hkv with h | h
      · subst h; exact ⟨kv, rfl, Nat.le_refl kv.1⟩
      · cases h
    | cons b t' =>
      have hs' : (decide (a.1 ≤ b.1) && sortedKeys (b :: t')) = true := hs
      have hab : a.1 ≤ b.1 := by
        have := (Bool.and_eq_true _ _).mp hs'
        exact of_decide_eq_true this.1
      have hsbt : sortedKeys (b :: t') = true := ((Bool.and_eq_true _ _).mp hs').2
      rcases List.mem_cons.mp hkv with h | h
      · subst h
        obtain ⟨last, hlast, hble⟩ := ih hsbt b (List.mem_cons_self b t')
        refine ⟨last, ?_, Nat.le_trans hab hble⟩
        rw [List.getLast?_cons_cons]
        exact hlast
      · obtain ⟨last, hlast, hle⟩ := ih hsbt kv h
        refine ⟨last, ?_, hle⟩
        rw [List.getLast?_cons_cons]
        exact hlast

/-- Claim C2: with every window sorted by timestamp (the BTreeMap invariant),
latestOf is an upper bound on all stored timestamps; the eviction pass is a
no-op unless that global maximum exceeds WINDOW; every sample surviving the
pass has timestamp at least latestOf minus WINDOW; and every sample at or
above that bound survives the pass in its own thread window. -/
theorem c2_window_invariant (threads : List (Nat × List (Nat × String)))
    (hs : ∀ p ∈ threads, sortedKeys p.2 = true) :
    (∀ p ∈ threads, ∀ kv ∈ p.2, kv.1 ≤ latestOf threads)
    ∧ (latestOf threads ≤ WINDOW_ns → evictPass threads = threads)
    ∧ (∀ p ∈ evictPass threads, ∀ kv ∈ p.2, latestOf threads - WINDOW_ns ≤ kv.1)
    ∧ (∀ p ∈ threads, ∀ kv ∈ p.2, latestOf threads - WINDOW_ns ≤ kv.1 →
        ∃ w', (p.1, w') ∈ evictPass threads ∧ kv ∈ w') := by
  refine ⟨?_, ?_, ?_, ?_⟩
  · intro p hp kv hkv
    obtain ⟨last, hlast, hle⟩ := sorted_getLast_ge p.2 (hs p hp) kv hkv
    exact Nat.le_trans hle (foldl_latStep_mem threads p last hp hlast 0)
  · intro hle
    unfold evictPass
    rw [if_neg (Nat.not_lt.mpr hle)]
  · intro p hp kv hkv
    by_cases hw : WINDOW_ns < latestOf threads
    · unfold evictPass at hp
      rw [if_pos hw] at hp
      obtain ⟨q, hq, hpq⟩ := List.mem_map.mp hp
      have hkv' : kv ∈ q.2.filter (fun kv => decide (latestOf threads - WINDOW_ns ≤ kv.1)) := by
        rw [← hpq] at hkv
        exact hkv
      exact of_decide_eq_true (List.mem_filter.mp hkv').2
    · have hz : latestOf threads - WINDOW_ns = 0 := Nat.sub_eq_zero_of_le (Nat.not_lt.mp hw)
      rw [hz]
      exact Nat.zero_le kv.1
  · intro p hp kv hkv hb
    by_cases hw : WINDOW_ns < latestOf threads
    · refine ⟨p.2.filter (fun kv => decide (latestOf threads - WINDOW_ns ≤ kv.1)), ?_, ?_⟩
      · unfold evictPass
        rw [if_pos hw]
        exact List.mem_map.mpr ⟨p, hp, rfl⟩
      · exact List.mem_filter.mpr ⟨hkv, decide_eq_true hb⟩
    · refine ⟨p.2, ?_, hkv⟩
      unfold evictPass
      rw [if_neg hw]
      exact hp

/-- Witness for c2_window_invariant at a concrete store: the surviving sample
of thread 1 is at or above the bound, and it indeed survives the pass. -/
theorem c2_window_invariant_witness :
    ∃ w', ((1 : Nat), w') ∈ evictPass [(1, [(5, "a"), (20000000000, "b")])]
      ∧ ((20000000000 : Nat), "b") ∈ w' :=
  (c2_window_invariant [(1, [(5, "a"), (20000000000, "b")])] (by decide)).2.2.2
    (1, [(5, "a"), (20000000000, "b")]) (by decide) (20000000000, "b") (by decide) (by decide)

/-! ### Claim C5 -/

theorem mem_insertByThreads (x a : String × Nat × Nat) (l : List (String × Nat × Nat))
    (h : a ∈ insertByThreads x l) : a = x ∨ a ∈ l := by
  induction l with
  | nil =>
    rcases List.mem_cons.mp h with h' | h'
    · exact Or.inl h'
    · cases h'
  | cons y rest ih =>
    unfold insertByThreads at h
    by_cases hc : y.2.1 ≤ x.2.1
    · rw [if_pos hc] at h
      rcases List.mem_cons.mp h with h' | h'
      · exact Or.inr (List.mem_cons.mpr (Or.inl h'))
      · rcases ih h' with h'' | h''
        · exact Or.inl h''
        · exact Or.inr (List.mem_cons.mpr (Or.inr h''))
    · rw [if_neg hc] at h
      rcases List.mem_cons.mp h with h' | h'
      · exact Or.inl h'
      · exact Or.inr h'

theorem mem_sortByThreads (a : String × Nat × Nat) (l : List (String × Nat × Nat))
    (h : a ∈ sortByThreads l) : a ∈ l := by
  induction l with
  | nil => cases h
  | cons x rest ih =>
    unfold sortByThreads at h
    rcases mem_insertByThreads x a (sortByThreads rest) h with h' | h'
    · exact List.mem_cons.mpr (Or.inl h')
    · exact List.mem_cons.mpr (Or.inr (ih h'))

/-- Claim C5: every fan-out point in the rendered output has a suffix with an
internal separator (more than one frame) and a total sample count different
from one; points failing either test are skipped by the render loop. -/
theorem c5_noise_filters (threads : List (Nat × List (Nat × String)))
    (p : String × Nat × Nat) (hp : p ∈ renderedPoints threads) :
    containsSemi p.1 = true ∧ p.2.2 ≠ 1 := by
  unfold renderedPoints at hp
  have hr : retainedPoint p = true := (List.mem_filter.mp hp).2
  unfold retainedPoint at hr
  have h2 := (Bool.and_eq_true _ _).mp hr
  exact ⟨h2.1, by simpa using h2.2⟩

/-- Witness for c5_noise_filters: a thread with two identical three-frame
samples yields the rendered point (b;c, 1 thread, 2 samples), whose suffix
has a separator and whose count is not one. -/
theorem c5_noise_filters_witness : containsSemi "b;c" = true ∧ (1, 2).2 ≠ 1 :=
  c5_noise_filters [(1, [(10, "a;b;c"), (20, "a;b;c")])] ("b;c", 1, 2) (by decide)

/-! ### Claim C7 -/

theorem badHeader_parseHeader (line : String) (h : badHeader line = true) :
    ∃ msg, parseHeader line = Except.error msg := by
  unfold badHeader at h
  cases hsp : splitWhitespace line with
  | nil => exact ⟨"no time given for frame", by simp [parseHeader, hsp]⟩
  | cons f0 rest =>
    cases rest with
    | nil =>
      cases hp0 : parseUsize f0 with
      | none => exact ⟨"invalid time", by simp [parseHeader, hsp, hp0]⟩
      | some v => exact ⟨"no tid given for frame", by simp [parseHeader, hsp, hp0]⟩
    | cons f1 rest' =>
      rw [hsp] at h
      cases hp0 : parseUsize f0 with
      | none => exact ⟨"invalid time", by simp [parseHeader, hsp, hp0]⟩
      | some v0 =>
        cases hp1 : parseUsize f1 with
        | none => exact ⟨"invalid tid", by simp [parseHeader, hsp, hp0, hp1]⟩
        | some v1 => simp [hp0, hp1] at h

/-- Claim C7: a line that reaches the header parser (not a diagnostic line,
not a body line, not empty) and is missing the timestamp or thread-id field,
or has a field that is not a valid non-negative integer, makes the loop body
return a fatal parse error instead of a new state. -/
theorem c7_malformed_header_fatal (replay : Bool) (st : LoopState) (line : String)
    (hE : startsWithS line "Error" = false)
    (hA : startsWithS line "Attaching" = false)
    (hS : startsWithCh line ' ' = false)
    (hNE : isEmptyStr line = false)
    (hbad : badHeader line = true) :
    ∃ e, consumeLine replay st line = Except.error e := by
  obtain ⟨msg, hmsg⟩ := badHeader_parseHeader line hbad
  unfold consumeLine
  rw [hE, hA, hS, hNE]
  simp only [Bool.or_false, Bool.not_false, Bool.true_or, if_true, if_false]
  rw [hmsg]
  exact ⟨Fatal.abort msg, by simp⟩

/-- Witness for c7_malformed_header_fatal at the spec scenario: the header
line abc 1 terminates processing with a fatal parse error. -/
theorem c7_malformed_header_fatal_witness :
    ∃ e, consumeLine false initState "abc 1" = Except.error e :=
  c7_malformed_header_fatal false initState "abc 1" rfl rfl rfl rfl rfl

/-! ### Claim C4 -/

theorem runLines_cons_ok (replay : Bool) (st : LoopState) (l : String) (rest : List String)
    (st' : LoopState) (h : consumeLine replay st l = Except.ok st') :
    runLines replay st (l :: rest) = runLines replay st' rest := by
  simp only [runLines]
  rw [h]

theorem startsWithCh_not_error (b : String) (hb : startsWithCh b ' ' = true) :
    startsWithS b "Error" = false := by
  unfold startsWithCh at hb
  unfold startsWithS
  cases hd : b.data with
  | nil => rw [hd] at hb; cases hb
  | cons c cs =>
    rw [hd] at hb
    have hc : c = ' ' := of_decide_eq_true hb
    subst hc
    rfl

theorem startsWithCh_not_attaching (b : String) (hb : startsWithCh b ' ' = true) :
    startsWithS b "Attaching" = false := by
  unfold startsWithCh at hb
  unfold startsWithS
  cases hd : b.data with
  | nil => rw [hd] at hb; cases hb
  | cons c cs =>
    rw [hd] at hb
    have hc : c = ' ' := of_decide_eq_true hb
    subst hc
    rfl

theorem startsWithCh_not_empty (b : String) (hb : startsWithCh b ' ' = true) :
    isEmptyStr b = false := by
  unfold startsWithCh at hb
  unfold isEmptyStr
  cases hd : b.data with
  | nil => rw [hd] at hb; cases hb
  | cons c cs => rfl

theorem consume_body (replay : Bool) (st : LoopState) (b : String)
    (hb : startsWithCh b ' ' = true) (hin : st.inframe.isSome = true) :
    consumeLine replay st b = Except.ok { st with stack := st.stack ++ trim' b ++ ";" } := by
  obtain ⟨p, hp⟩ := Option.isSome_iff_exists.mp hin
  unfold consumeLine
  rw [startsWithCh_not_error b hb, startsWithCh_not_attaching b hb, hb,
    startsWithCh_not_empty b hb, hp]
  rfl

theorem consume_header (replay : Bool) (st : LoopState) (line : String) (p : Nat × Nat)
    (hE : startsWithS line "Error" = false)
    (hA : startsWithS line "Attaching" = false)
    (hS : startsWithCh line ' ' = false)
    (hNE : isEmptyStr line = false)
    (hin : st.inframe = none)
    (hP : parseHeader line = Except.ok p) :
    consumeLine replay st line = Except.ok { st with inframe := some p } := by
  unfold consumeLine
  rw [hE, hA, hS, hNE, hin, hP]
  rfl

theorem consume_empty_line (replay : Bool) (st : LoopState) (time tid : Nat)
    (hin : st.inframe = some (time, tid)) :
    consumeLine replay st "" = Except.ok (closeStep replay time tid st) := by
  unfold consumeLine
  rw [hin]
  rfl

theorem runLines_bodies (replay : Bool) (bodies : List String) :
    ∀ (st : LoopState) (rest : List String),
      (∀ b ∈ bodies, startsWithCh b ' ' = true) → st.inframe.isSome = true →
      runLines replay st (bodies ++ rest)
        = runLines replay { st with stack := st.stack ++ buildBuf bodies } rest := by
  induction bodies with
  | nil =>
    intro st rest _ _
    rw [show buildBuf [] = "" from rfl, strAppendEmpty]
    rfl
  | cons b bs ih =>
    intro st rest hB hin
    have hb : startsWithCh b ' ' = true := hB b (List.mem_cons_self b bs)
    have hBs : ∀ x ∈ bs, startsWithCh x ' ' = true := fun x hx => hB x (List.mem_cons_of_mem b hx)
    have hstep := consume_body replay st b hb hin
    rw [show (b :: bs) ++ rest = b :: (bs ++ rest) from rfl,
      runLines_cons_ok replay st b (bs ++ rest) _ hstep,
      ih { st with stack := st.stack ++ trim' b ++ ";" } rest hBs hin]
    simp only [show buildBuf (b :: bs) = trim' b ++ ";" ++ buildBuf bs from rfl, strAppendAssoc]

theorem buildBuf_data (bodies : List String) (hne : bodies ≠ []) :
    (buildBuf bodies).data = (joinSemi (bodies.map trim')).data ++ [';'] := by
  induction bodies with
  | nil => cases hne rfl
  | cons b bs ih =>
    cases bs with
    | nil => simp [buildBuf, joinSemi, String.data_append]
    | cons c cs =>
      have ih' := ih (by simp)
      simp [buildBuf, joinSemi, String.data_append] at ih' ⊢
      rw [ih']

theorem dropLast_buildBuf (bodies : List String) (hne : bodies ≠ []) :
    dropLastChar (buildBuf bodies) = joinSemi (bodies.map trim') := by
  unfold dropLastChar
  rw [buildBuf_data bodies hne, List.dropLast_concat, strMkData]

theorem latestOf_singleton (tid t : Nat) (chain : String) :
    latestOf [(tid, [(t, chain)])] = t := by
  unfold latestOf latStep
  simp

theorem evictPass_singleton (tid t : Nat) (chain : String) :
    evictPass [(tid, [(t, chain)])] = [(tid, [(t, chain)])] := by
  unfold evictPass
  rw [latestOf_singleton]
  by_cases h : WINDOW_ns < t
  · rw [if_pos h]
    simp [List.filter, Nat.sub_le]
  · rw [if_neg h]

theorem closeStep_tids_empty (replay : Bool) (time tid : Nat) (st : LoopState)
    (h : isEmptyStr st.stack = true) : (closeStep replay time tid st).tids = st.tids := by
  unfold closeStep
  rw [h]
  rfl

theorem closeStep_tids_single (replay : Bool) (time tid : Nat) (st : LoopState)
    (h : isEmptyStr st.stack = false) (hst : st.tids = []) :
    (closeStep replay time tid st).tids = [(tid, [(time, dropLastChar st.stack)])] := by
  unfold closeStep
  rw [h]
  show (closeRecord replay time tid st).tids = _
  unfold closeRecord
  show (if decide (DRAW_EVERY_ns < wsub time st.lastprint) = true
      then evictPass (storeInsert tid time (dropLastChar st.stack) st.tids)
      else storeInsert tid time (dropLastChar st.stack) st.tids) = _
  rw [hst]
  by_cases hd : DRAW_EVERY_ns < wsub time st.lastprint
  · rw [if_pos (decide_eq_true hd)]
    show evictPass [(tid, [(time, dropLastChar st.stack)])] = _
    rw [evictPass_singleton]
  · rw [if_neg (by simp [hd])]
    rfl

theorem consume_terminator (replay : Bool) (st : LoopState) (term : String) (time tid : Nat)
    (hin : st.inframe = some (time, tid))
    (hT : term = "" ∨ (startsWithS term "Error" = false ∧ startsWithS term "Attaching" = false ∧
        startsWithCh term ' ' = false ∧ isEmptyStr term = false ∧
        ∃ r, parseHeader term = Except.ok r)) :
    ∃ st', runLines replay st [term] = Except.ok st'
      ∧ st'.tids = (closeStep replay time tid st).tids := by
  rcases hT with h | ⟨hE, hA, hS, hNE, r, hr⟩
  · subst h
    refine ⟨closeStep replay time tid st, ?_, rfl⟩
    rw [runLines_cons_ok replay st "" [] _ (consume_empty_line replay st time tid hin)]
    rfl
  · have hstep : consumeLine replay st term
        = Except.ok { closeStep replay time tid st with inframe := some r } := by
      unfold consumeLine
      rw [hE, hA, hS, hNE, hin, hr]
      rfl
    refine ⟨{ closeStep replay time tid st with inframe := some r }, ?_, rfl⟩
    rw [runLines_cons_ok replay st term [] _ hstep]
    rfl

/-- Claim C4: from a fresh parser state, one well-formed record (a valid
header line, body lines each starting with a space, terminated by a blank
line or another valid header line) yields exactly one stored sample whose
chain is the body lines in order, each trimmed, joined by semicolons with no
trailing separator; a record with zero body lines stores nothing. -/
theorem c4_parser_round_trip (replay : Bool) (hline : String) (t tid : Nat)
    (bodies : List String) (term : String)
    (hE : startsWithS hline "Error" = false)
    (hA : startsWithS hline "Attaching" = false)
    (hS : startsWithCh hline ' ' = false)
    (hNE : isEmptyStr hline = false)
    (hP : parseHeader hline = Except.ok (t, tid))
    (hB : ∀ b ∈ bodies, startsWithCh b ' ' = true)
    (hT : term = "" ∨ (startsWithS term "Error" = false ∧ startsWithS term "Attaching" = false ∧
        startsWithCh term ' ' = false ∧ isEmptyStr term = false ∧
        ∃ r, parseHeader term = Except.ok r)) :
    ∃ st', runLines replay initState (hline :: (bodies ++ [term])) = Except.ok st' ∧
      st'.tids = if bodies = [] then [] else [(tid, [(t, joinSemi (bodies.map trim'))])] := by
  have h1 : consumeLine replay initState hline
      = Except.ok { initState with inframe := some (t, tid) } :=
    consume_header replay initState hline (t, tid) hE hA hS hNE rfl hP
  have hrw1 : runLines replay initState (hline :: (bodies ++ [term]))
      = runLines replay { initState with inframe := some (t, tid) } (bodies ++ [term]) :=
    runLines_cons_ok replay initState hline (bodies ++ [term]) _ h1
  have hrw2 : runLines replay { initState with inframe := some (t, tid) } (bodies ++ [term])
      = runLines replay (⟨[], some (t, tid), buildBuf bodies, 0, 0, false, false, 0⟩ : LoopState)
          [term] :=
    runLines_bodies replay bodies { initState with inframe := some (t, tid) } [term] hB rfl
  obtain ⟨st', hrun, htids⟩ := consume_terminator replay
    (⟨[], some (t, tid), buildBuf bodies, 0, 0, false, false, 0⟩ : LoopState) term t tid rfl hT
  refine ⟨st', by rw [hrw1, hrw2, hrun], ?_⟩
  rw [htids]
  cases bodies with
  | nil =>
    rw [closeStep_tids_empty replay t tid
      (⟨[], some (t, tid), buildBuf [], 0, 0, false, false, 0⟩ : LoopState) rfl]
    rfl
  | cons b bs =>
    have hne : isEmptyStr
        (⟨[], some (t, tid), buildBuf (b :: bs), 0, 0, false, false, 0⟩ : LoopState).stack
        = false := by
      show isEmptyStr (buildBuf (b :: bs)) = false
      unfold isEmptyStr
      rw [buildBuf_data (b :: bs) (by simp)]
      simp
    rw [closeStep_tids_single replay t tid _ hne rfl]
    rw [show dropLastChar
        (⟨[], some (t, tid), buildBuf (b :: bs), 0, 0, false, false, 0⟩ : LoopState).stack
        = joinSemi ((b :: bs).map trim') from dropLast_buildBuf (b :: bs) (by simp)]
    simp

/-- Witness for c4_parser_round_trip: the record with header 100 1, body
lines for frames a and b, and a blank terminator stores the single sample
(thread 1, time 100, chain a;b). -/
theorem c4_parser_round_trip_witness :
    ∃ st', runLines false initState ["100 1", " a", " b", ""] = Except.ok st' ∧
      st'.tids = [(1, [(100, "a;b")])] := by
  obtain ⟨st', h1, h2⟩ := c4_parser_round_trip false "100 1" 100 1 [" a", " b"] ""
    rfl rfl rfl rfl rfl (by decide) (Or.inl rfl)
  refine ⟨st', h1, ?_⟩
  rw [h2]
  rfl

/-! ### Claim C9 -/

/-- Counterexample to claim C9: from a fresh state the header 300000001 7
arrives and the following blank line closes the record. The elapsed trace
time since the last draw, 300000001 ns from the initial lastprint of 0,
exceeds the 200 ms draw interval, yet no draw cycle runs (drawCount stays 0)
because the closed record had an empty chain, refuting the claimed
if-and-only-if. -/
theorem c9_counterexample :
    (runLines false initState ["300000001 7", ""]).toOption.map
      (fun st => (st.drawCount, st.inframe)) = some (0, none)
    ∧ DRAW_EVERY_ns < 300000001 := by
  refine ⟨by decide, by decide⟩

/-- Claim C9 as amended: when a record closes, a draw cycle is triggered if
and only if the accumulated chain is non-empty and the wrapping difference
time - lastprint exceeds the draw interval (that difference equals the
elapsed trace time whenever timestamps have not regressed); draw cycles are
triggered only while a record is being closed; and the interval is 200 ms in
this replay-aware variant and, modelled from the spec, 1 s in the plain
variant. -/
theorem c9_draw_trigger :
    (∀ (replay : Bool) (time tid : Nat) (st : LoopState),
        (closeStep replay time tid st).drawCount = st.drawCount + 1 ↔
          (isEmptyStr st.stack = false ∧ DRAW_EVERY_ns < wsub time st.lastprint))
    ∧ (∀ (replay : Bool) (st : LoopState) (line : String) (st' : LoopState),
        consumeLine replay st line = Except.ok st' →
        st'.drawCount ≠ st.drawCount → st.inframe.isSome = true)
    ∧ (∀ a b : Nat, b ≤ a → a < U64 → wsub a b = a - b)
    ∧ DRAW_EVERY_ns = 200 * 1000000 ∧ DRAW_EVERY_plain_ns = 1000 * 1000000 := by
  refine ⟨?_, ?_, ?_, rfl, rfl⟩
  · intro replay time tid st
    unfold closeStep
    by_cases he : isEmptyStr st.stack = true
    · rw [if_pos he]
      simp [he, Nat.self_eq_add_right]
    · have he' : isEmptyStr st.stack = false := by simpa using he
      rw [if_neg he]
      unfold closeRecord
      by_cases hd : DRAW_EVERY_ns < wsub time st.lastprint
      · simp [hd, he']
      · simp [hd, he', Nat.self_eq_add_right]
  · intro replay st line st' hok hne
    unfold consumeLine at hok
    by_cases h1 : (startsWithS line "Error" || startsWithS line "Attaching") = true
    · rw [if_pos h1] at hok
      injection hok with h2
      rw [h2] at hne
      exact absurd rfl hne
    · rw [if_neg h1] at hok
      by_cases h2 : (!startsWithCh line ' ' || isEmptyStr line) = true
      · rw [if_pos h2] at hok
        cases hin : st.inframe with
        | some p => rfl
        | none =>
          rw [hin] at hok
          by_cases h3 : isEmptyStr line = true
          · rw [if_pos h3] at hok
            injection hok with h4
            rw [← h4] at hne
            exact absurd rfl hne
          · rw [if_neg h3] at hok
            cases hp : parseHeader line with
            | ok p =>
              rw [hp] at hok
              injection hok with h4
              rw [← h4] at hne
              exact absurd rfl hne
            | error m =>
              rw [hp] at hok
              exact Except.noConfusion hok
      · rw [if_neg h2] at hok
        cases hin : st.inframe with
        | some p => rfl
        | none =>
          rw [hin] at hok
          exact Except.noConfusion hok
  · intro a b hba ha
    unfold wsub
    rw [show a + U64 - b = (a - b) + U64 by omega, Nat.add_mod_right]
    exact Nat.mod_eq_of_lt (by omega)

/-- Witness for c9_draw_trigger: closing a record with chain buffer a; at
time 300000001 from a fresh-clock state draws (drawCount becomes 1); the
wrapping difference agrees with plain subtraction on ordered inputs; and a
changed draw count after an empty line implies a record was pending. -/
theorem c9_draw_trigger_witness :
    (closeStep false 300000001 7
        (⟨[], some (300000001, 7), "a;", 0, 0, false, false, 0⟩ : LoopState)).drawCount = 0 + 1
    ∧ wsub 300000001 0 = 300000001 - 0
    ∧ (⟨[], some (300000001, 7), "a;", 0, 0, false, false, 0⟩ : LoopState).inframe.isSome
        = true := by
  refine ⟨?_, ?_, ?_⟩
  · exact (c9_draw_trigger.1 false 300000001 7
      (⟨[], some (300000001, 7), "a;", 0, 0, false, false, 0⟩ : LoopState)).mpr
      ⟨rfl, by decide⟩
  · exact c9_draw_trigger.2.2.1 300000001 0 (Nat.zero_le _) (by decide)
  · exact c9_draw_trigger.2.1 false
      (⟨[], some (300000001, 7), "a;", 0, 0, false, false, 0⟩ : LoopState) ""
      (closeStep false 300000001 7
        (⟨[], some (300000001, 7), "a;", 0, 0, false, false, 0⟩ : LoopState))
      rfl (by decide)
